import Mathlib

/-!
Verification development for the Luau transactional mutation log
(`Analysis/include/Luau/TxnLog.h`).

The type graph is embedded shallowly: node identities are arena indices
(`Nat`), shapes are a small tagged variant covering the tags the contract
distinguishes (bound alias vs everything else), and the live graph is a
total map from identities to shapes.  The `TxnLog` is embedded with its two
identity-keyed change maps (association lists with at most one binding per
key maintained by the operations), and an optional parent log.

The header declares most operations but their bodies live in `TxnLog.cpp`,
which is not part of the sources available here; those operations are
modelled from the specification's description of their behaviour and are
marked `Modelled from the spec:` in their doc comments.  The inline template
bodies that do appear in the header (`TxnLog::getMutable`, `TxnLog::get`,
`TxnLog::is`, and the `PendingType` accessors) are translated directly.

The shared cycle-guard stack (`sharedSeen`, a pointer shared along the
nesting chain) is modelled as explicit state of type `SeenSet` passed to
the seen-stack operations.
-/

/-- Stable identity handle of a type node (arena index). -/
abbrev TypeId := Nat

/-- Stable identity handle of a type-pack node (arena index). -/
abbrev TypePackId := Nat

/-- Raw identity as stored in the cycle-guard stack (`TypeOrPackId` is
`const void*` in the header: type and pack identities are stored as raw
addresses in the one shared stack). -/
abbrev TypeOrPackId := Nat

/-- Tag of a shape variant: the contract only distinguishes the bound-alias
tag from the other tags, so a small representative set is embedded. -/
inductive Kind where
  | bound
  | free
  | table
  | prim
  | err
deriving DecidableEq, Repr

/-- Shape (tagged variant payload) of a type node.  `bound` is the
bound-alias variant pointing at another node identity; `free` carries a
quantification level; the rest are representative non-alias tags. -/
inductive TypeVar where
  | bound (target : TypeId)
  | free (level : Nat)
  | table (level : Nat)
  | prim (n : Nat)
  | err
deriving DecidableEq, Repr

/-- The tag of a shape. -/
def TypeVar.tag : TypeVar → Kind
  | .bound _ => .bound
  | .free _ => .free
  | .table _ => .table
  | .prim _ => .prim
  | .err => .err

/-- Shape of a type-pack node.  Packs also have a bound-alias variant. -/
inductive TypePackVar where
  | bound (target : TypePackId)
  | pack (n : Nat)
deriving DecidableEq, Repr

/-- The live type graph: committed shape of every type node and pack node. -/
structure Graph where
  types : TypeId → TypeVar
  packs : TypePackId → TypePackVar

/-- Pending state for a type node (`PendingType` in the header): owns one
proposed replacement shape for exactly one existing node identity. -/
structure PendingType where
  pending : TypeVar
deriving DecidableEq, Repr

/-- Pending state for a pack node (`PendingTypePack` in the header). -/
structure PendingTypePack where
  pending : TypePackVar
deriving DecidableEq, Repr

/-- First binding of a key in an association list, mirroring a map lookup
(`DenseHashMap::find`). -/
def lookupEntry {α β : Type} [DecidableEq α] : List (α × β) → α → Option β
  | [], _ => none
  | (k', v') :: rest, k => if k' = k then some v' else lookupEntry rest k

/-- Overwrite the binding of a key, or append a fresh binding if the key is
absent, mirroring `map[key] = value` on an identity-keyed map. -/
def setEntry {α β : Type} [DecidableEq α] : List (α × β) → α → β → List (α × β)
  | [], k, v => [(k, v)]
  | (k', v') :: rest, k, v =>
    if k' = k then (k, v) :: rest else (k', v') :: setEntry rest k v

/-- Transaction log (`TxnLog`): its own two identity-keyed change maps and
an optional (non-owning) parent log.  The shared cycle-guard stack is
modelled separately as explicit `SeenSet` state. -/
inductive TxnLog : Type where
  | mk (typeVarChanges : List (TypeId × PendingType))
       (typePackChanges : List (TypePackId × PendingTypePack))
       (parent : Option TxnLog)

/-- The log's own map of pending type-node edits. -/
def TxnLog.typeVarChanges : TxnLog → List (TypeId × PendingType)
  | .mk m _ _ => m

/-- The log's own map of pending pack-node edits. -/
def TxnLog.typePackChanges : TxnLog → List (TypePackId × PendingTypePack)
  | .mk _ m _ => m

/-- The optional parent log reference. -/
def TxnLog.parent : TxnLog → Option TxnLog
  | .mk _ _ p => p

/-- Replace the type-change map, keeping the pack map and parent. -/
def TxnLog.withTypeVarChanges : TxnLog → List (TypeId × PendingType) → TxnLog
  | .mk _ mp p, m => .mk m mp p

/-- Replace the pack-change map, keeping the type map and parent. -/
def TxnLog.withTypePackChanges : TxnLog → List (TypePackId × PendingTypePack) → TxnLog
  | .mk mt _ p, m => .mk mt m p

/-- Store one pending type-node edit in the log's own map. -/
def TxnLog.setTy (L : TxnLog) (ty : TypeId) (pt : PendingType) : TxnLog :=
  L.withTypeVarChanges (setEntry L.typeVarChanges ty pt)

/-- Store one pending pack-node edit in the log's own map. -/
def TxnLog.setTp (L : TxnLog) (tp : TypePackId) (pt : PendingTypePack) : TxnLog :=
  L.withTypePackChanges (setEntry L.typePackChanges tp pt)

/-- Modelled from the spec: `TxnLog::pending(TypeId)` (body in the missing
`TxnLog.cpp`): "local lookup in this log's own mapping only; does not
consult the parent chain". -/
def TxnLog.pending (L : TxnLog) (ty : TypeId) : Option PendingType :=
  lookupEntry L.typeVarChanges ty

/-- Modelled from the spec: `TxnLog::pending(TypePackId)`, the pack-side
counterpart of the local-only lookup. -/
def TxnLog.pendingPack (L : TxnLog) (tp : TypePackId) : Option PendingTypePack :=
  lookupEntry L.typePackChanges tp

/-- Modelled from the spec: `TxnLog::queue(TypeId)` —  "ensures an entry
exists for `node` in this log's own mapping, initialized from the node's
currently effective shape as seen through this log" (with no local pending
entry, the effective shape is the committed one, so initialization reads the
live graph).  Returns the updated log and the pending node; pointer identity
of the returned `PendingType*` is modelled as value identity together with
the log state. -/
def TxnLog.queue (g : Graph) (L : TxnLog) (ty : TypeId) : TxnLog × PendingType :=
  match lookupEntry L.typeVarChanges ty with
  | some pt => (L, pt)
  | none =>
    let pt : PendingType := ⟨g.types ty⟩
    (L.setTy ty pt, pt)

/-- Modelled from the spec: `TxnLog::replace(TypeId, TypeVar)` —
"force-sets (creates or overwrites) the pending shape for `node`". -/
def TxnLog.replace (L : TxnLog) (ty : TypeId) (replacement : TypeVar) :
    TxnLog × PendingType :=
  let pt : PendingType := ⟨replacement⟩
  (L.setTy ty pt, pt)

/-- Modelled from the spec: `TxnLog::replace(TypePackId, TypePackVar)`. -/
def TxnLog.replacePack (L : TxnLog) (tp : TypePackId) (replacement : TypePackVar) :
    TxnLog × PendingTypePack :=
  let pt : PendingTypePack := ⟨replacement⟩
  (L.setTp tp pt, pt)

/-- Modelled from the spec: `TxnLog::clear` — "discards all pending entries
without touching the live graph".  The graph is not an input, matching the
fact that `clear` only resets the log's own maps. -/
def TxnLog.clear (L : TxnLog) : TxnLog :=
  (L.withTypeVarChanges []).withTypePackChanges []

/-- Modelled from the spec: `TxnLog::commit` — "applies every entry in this
log's own mappings to the corresponding live graph node, then clears this
log's mappings".  Each identity has at most one entry in a log's own map
(header invariant of the identity-keyed map), so the cumulative effect of
applying every entry is the lookup-override of the committed graph. -/
def TxnLog.commit (g : Graph) (L : TxnLog) : Graph × TxnLog :=
  ({ types := fun id =>
      match lookupEntry L.typeVarChanges id with
      | some pt => pt.pending
      | none => g.types id
    , packs := fun id =>
      match lookupEntry L.typePackChanges id with
      | some pt => pt.pending
      | none => g.packs id }
  , L.clear)

/-- Modelled from the spec: `TxnLog::inverse` — "produces a fresh log where,
for every node currently queued in this log, the new log's pending shape
equals that node's shape as currently committed (pre-commit)". -/
def TxnLog.inverse (g : Graph) (L : TxnLog) : TxnLog :=
  .mk (L.typeVarChanges.map fun q => (q.1, ⟨g.types q.1⟩))
      (L.typePackChanges.map fun q => (q.1, ⟨g.packs q.1⟩))
      none

/-- Modelled from the spec: `TxnLog::concat(TxnLog rhs)` — "merges `other`'s
mappings into this log in place; on conflict the incoming (`other`) entry
wins": every entry of `rhs` is assigned into this log's maps in turn. -/
def TxnLog.concat (L : TxnLog) (rhs : TxnLog) : TxnLog :=
  let afterTypes := rhs.typeVarChanges.foldl (fun acc q => acc.setTy q.1 q.2) L
  rhs.typePackChanges.foldl (fun acc q => acc.setTp q.1 q.2) afterTypes

/-- The effective shape of a type node as seen through a log: the pending
shape if this log has one queued, otherwise the committed shape. -/
def effective (g : Graph) (L : TxnLog) (ty : TypeId) : TypeVar :=
  match L.pending ty with
  | some pt => pt.pending
  | none => g.types ty

/-- Modelled from the spec: `TxnLog::follow(TypeId)` (body in the missing
`TxnLog.cpp`) — "resolves successive bound-alias links, preferring a pending
alias target over the committed one at each hop, stopping at the first
non-alias node (pending shape checked first, then committed)".  The source
loop is embedded with an explicit fuel bound; on an alias chain of length
below the fuel the fuel never runs out. -/
def TxnLog.follow (g : Graph) (L : TxnLog) : Nat → TypeId → TypeId
  | 0, ty => ty
  | Nat.succ fuel, ty =>
    match effective g L ty with
    | .bound target => TxnLog.follow g L fuel target
    | _ => ty

/-- Tag-guarded extraction (`Luau::get_if<T>` applied to a shape): the shape
itself when its current tag matches the requested kind, otherwise nothing.
Never aborts. -/
def get_if (K : Kind) (tv : TypeVar) : Option TypeVar :=
  if tv.tag = K then some tv else none

/-- Modelled from the spec: `Luau::getMutable<T>` on a node's shape (defined
in `TypeVar.h`, which is not among the sources) — returns the shape when the
tag matches, and is "fatal if the node is a bound-alias (aliases must be
resolved via `follow`, never edited through directly)".  The fatal assertion
is embedded as `Except.error ()`. -/
def getMutableVar (K : Kind) (tv : TypeVar) : Except Unit (Option TypeVar) :=
  if tv.tag = Kind.bound then Except.error ()
  else Except.ok (get_if K tv)

/-- Translation of the header's inline `TxnLog::getMutable<T, TID>`: use the
pending shape if one is queued in this log, else the committed shape, and
apply the kind-checked (bound-alias-fatal) extraction to it.  The pending
branch goes through `Luau::getMutable<T>(PendingType*)`, which extracts from
the wrapped pending shape. -/
def TxnLog.getMutable (g : Graph) (L : TxnLog) (K : Kind) (ty : TypeId) :
    Except Unit (Option TypeVar) :=
  match L.pending ty with
  | some pendingTy => getMutableVar K pendingTy.pending
  | none => getMutableVar K (g.types ty)

/-- Translation of the header's inline `TxnLog::get<T, TID>`: literally
`return this->getMutable<T>(ty);` (the same lookup, viewed read-only). -/
def TxnLog.get (g : Graph) (L : TxnLog) (K : Kind) (ty : TypeId) :
    Except Unit (Option TypeVar) :=
  TxnLog.getMutable g L K ty

/-- Translation of the header's inline `TxnLog::is<T, TID>`: check the
pending shape's tag if one is queued, else the committed shape's tag, via
the non-asserting `get_if` ("this method will not assert if called on a
BoundTypeVar").  Total: aborting is not a possible outcome. -/
def TxnLog.is (g : Graph) (L : TxnLog) (K : Kind) (ty : TypeId) : Bool :=
  match L.pending ty with
  | some pendingTy => (get_if K pendingTy.pending).isSome
  | none => (get_if K (g.types ty)).isSome

/-- Tag of a pack-shape variant: the bound-alias tag versus the rest. -/
inductive PackKind where
  | bound
  | pack
deriving DecidableEq, Repr

/-- The tag of a pack shape. -/
def TypePackVar.tag : TypePackVar → PackKind
  | .bound _ => .bound
  | .pack _ => .pack

/-- Tag-guarded extraction on a pack shape (`Luau::get_if<T>` applied to a
`TypePackVar`): never aborts. -/
def get_ifPack (K : PackKind) (tv : TypePackVar) : Option TypePackVar :=
  if tv.tag = K then some tv else none

/-- Modelled from the spec: `Luau::getMutable<T>` on a pack node's shape
(defined in `TypePack.h`, which is not among the sources) — returns the
shape when the tag matches, fatal if the node is a bound alias, exactly as
for type nodes. -/
def getMutablePackVar (K : PackKind) (tv : TypePackVar) :
    Except Unit (Option TypePackVar) :=
  if tv.tag = PackKind.bound then Except.error ()
  else Except.ok (get_ifPack K tv)

/-- The effective shape of a pack node as seen through a log: the pending
shape if this log has one queued, otherwise the committed shape. -/
def effectivePack (g : Graph) (L : TxnLog) (tp : TypePackId) : TypePackVar :=
  match L.pendingPack tp with
  | some pt => pt.pending
  | none => g.packs tp

/-- Translation of the header's inline `TxnLog::getMutable<T, TID>` at the
pack-identity instantiation of `TID`: use the pending pack shape if one is
queued in this log, else the committed one, and apply the kind-checked
(bound-alias-fatal) extraction to it. -/
def TxnLog.getMutablePack (g : Graph) (L : TxnLog) (K : PackKind)
    (tp : TypePackId) : Except Unit (Option TypePackVar) :=
  match L.pendingPack tp with
  | some pendingTp => getMutablePackVar K pendingTp.pending
  | none => getMutablePackVar K (g.packs tp)

/-- Translation of the header's inline `TxnLog::get<T, TID>` at the
pack-identity instantiation: literally `return this->getMutable<T>(ty);`. -/
def TxnLog.getPack (g : Graph) (L : TxnLog) (K : PackKind) (tp : TypePackId) :
    Except Unit (Option TypePackVar) :=
  TxnLog.getMutablePack g L K tp

/-- The shared cycle-guard stack (`sharedSeen`): one stack of identity pairs
shared by a whole nesting chain, modelled as explicit state. -/
abbrev SeenSet := List (TypeOrPackId × TypeOrPackId)

/-- Modelled from the spec: `TxnLog::pushSeen` (body in the missing
`TxnLog.cpp`) — pushes the pair onto the shared stack. -/
def pushSeen (s : SeenSet) (lhs rhs : TypeOrPackId) : SeenSet :=
  s ++ [(lhs, rhs)]

/-- Modelled from the spec: `TxnLog::popSeen` — pops the top pair from the
shared stack; the contract requires the popped pair to be the matching pair
pushed last (push/pop are balanced around one structural comparison). -/
def popSeen (s : SeenSet) (_lhs _rhs : TypeOrPackId) : SeenSet :=
  s.dropLast

/-- Modelled from the spec: `TxnLog::haveSeen` — whether the sought pair is
somewhere on the shared stack (a linear scan over the stack). -/
def haveSeen (s : SeenSet) (lhs rhs : TypeOrPackId) : Bool :=
  decide ((lhs, rhs) ∈ s)

/-- Keys of a log's own type-change map are pairwise distinct: the header
invariant "within one log's own mapping, a given identity has at most one
Pending Node". -/
def TxnLog.WFtypes (L : TxnLog) : Prop :=
  (L.typeVarChanges.map Prod.fst).Nodup

instance (L : TxnLog) : Decidable L.WFtypes := by
  unfold TxnLog.WFtypes
  infer_instance

/-! ### Helper lemmas on the identity-keyed maps -/

theorem lookupEntry_setEntry_self {α β : Type} [DecidableEq α]
    (m : List (α × β)) (k : α) (v : β) :
    lookupEntry (setEntry m k v) k = some v := by
  induction m with
  | nil => simp [setEntry, lookupEntry]
  | cons hd tl ih =>
    by_cases h : hd.1 = k
    · simp [setEntry, lookupEntry, h]
    · simpa [setEntry, lookupEntry, h] using ih

theorem lookupEntry_setEntry_ne {α β : Type} [DecidableEq α]
    (m : List (α × β)) (k k' : α) (v : β) (h : k' ≠ k) :
    lookupEntry (setEntry m k v) k' = lookupEntry m k' := by
  induction m with
  | nil => simp [setEntry, lookupEntry, Ne.symm h]
  | cons hd tl ih =>
    obtain ⟨k0, v0⟩ := hd
    by_cases hk : k0 = k
    · subst hk
      simp [setEntry, lookupEntry, Ne.symm h]
    · by_cases hk' : k0 = k'
      · simp [setEntry, lookupEntry, hk, hk', h]
      · simp [setEntry, lookupEntry, hk, hk', ih]

theorem lookupEntry_eq_none_of_not_mem {α β : Type} [DecidableEq α]
    (m : List (α × β)) (k : α) (h : k ∉ m.map Prod.fst) :
    lookupEntry m k = none := by
  induction m with
  | nil => rfl
  | cons hd tl ih =>
    obtain ⟨k0, v0⟩ := hd
    simp only [List.map_cons, List.mem_cons, not_or] at h
    have hne : k0 ≠ k := fun hh => h.1 hh.symm
    simp [lookupEntry, hne, ih h.2]

theorem lookupEntry_map_key {α β γ : Type} [DecidableEq α]
    (m : List (α × β)) (f : α → γ) (k : α) :
    lookupEntry (m.map fun q => (q.1, f q.1)) k
      = (lookupEntry m k).map fun _ => f k := by
  induction m with
  | nil => simp [lookupEntry]
  | cons hd tl ih =>
    obtain ⟨k0, v0⟩ := hd
    by_cases h : k0 = k
    · subst h
      simp [lookupEntry]
    · simp [lookupEntry, h, ih]

theorem lookupEntry_foldl_setEntry_of_none {α β : Type} [DecidableEq α]
    (m : List (α × β)) (acc : List (α × β)) (k : α)
    (h : lookupEntry m k = none) :
    lookupEntry (m.foldl (fun a q => setEntry a q.1 q.2) acc) k
      = lookupEntry acc k := by
  induction m generalizing acc with
  | nil => simp
  | cons hd tl ih =>
    obtain ⟨k0, v0⟩ := hd
    by_cases hk : k0 = k
    · simp [lookupEntry, hk] at h
    · simp only [lookupEntry, hk, if_false] at h
      rw [List.foldl_cons, ih _ h]
      exact lookupEntry_setEntry_ne acc k0 k v0 (Ne.symm hk)

theorem lookupEntry_foldl_setEntry_of_some {α β : Type} [DecidableEq α]
    (m : List (α × β)) (acc : List (α × β)) (k : α) (v : β)
    (hnd : (m.map Prod.fst).Nodup)
    (h : lookupEntry m k = some v) :
    lookupEntry (m.foldl (fun a q => setEntry a q.1 q.2) acc) k = some v := by
  induction m generalizing acc with
  | nil => simp [lookupEntry] at h
  | cons hd tl ih =>
    obtain ⟨k0, v0⟩ := hd
    simp only [List.map_cons, List.nodup_cons] at hnd
    by_cases hk : k0 = k
    · subst hk
      have hv : v0 = v := by simpa [lookupEntry] using h
      have htl : lookupEntry tl k0 = none :=
        lookupEntry_eq_none_of_not_mem tl k0 hnd.1
      rw [List.foldl_cons, lookupEntry_foldl_setEntry_of_none tl _ k0 htl,
        lookupEntry_setEntry_self]
      exact congrArg some hv
    · simp only [lookupEntry, hk, if_false] at h
      rw [List.foldl_cons]
      exact ih _ hnd.2 h

/-! ### Component lemmas for the log operations -/

@[simp]
theorem TxnLog.typeVarChanges_mk (a : List (TypeId × PendingType))
    (b : List (TypePackId × PendingTypePack)) (c : Option TxnLog) :
    (TxnLog.mk a b c).typeVarChanges = a := rfl

@[simp]
theorem TxnLog.typePackChanges_mk (a : List (TypeId × PendingType))
    (b : List (TypePackId × PendingTypePack)) (c : Option TxnLog) :
    (TxnLog.mk a b c).typePackChanges = b := rfl

@[simp]
theorem TxnLog.typeVarChanges_setTy (L : TxnLog) (ty : TypeId) (pt : PendingType) :
    (L.setTy ty pt).typeVarChanges = setEntry L.typeVarChanges ty pt := by
  cases L
  rfl

@[simp]
theorem TxnLog.typePackChanges_setTy (L : TxnLog) (ty : TypeId) (pt : PendingType) :
    (L.setTy ty pt).typePackChanges = L.typePackChanges := by
  cases L
  rfl

@[simp]
theorem TxnLog.typeVarChanges_setTp (L : TxnLog) (tp : TypePackId) (pt : PendingTypePack) :
    (L.setTp tp pt).typeVarChanges = L.typeVarChanges := by
  cases L
  rfl

@[simp]
theorem TxnLog.typePackChanges_setTp (L : TxnLog) (tp : TypePackId) (pt : PendingTypePack) :
    (L.setTp tp pt).typePackChanges = setEntry L.typePackChanges tp pt := by
  cases L
  rfl

@[simp]
theorem TxnLog.typeVarChanges_clear (L : TxnLog) : L.clear.typeVarChanges = [] := by
  cases L
  rfl

@[simp]
theorem TxnLog.typePackChanges_clear (L : TxnLog) : L.clear.typePackChanges = [] := by
  cases L
  rfl

theorem TxnLog.typeVarChanges_foldl_setTp (rhs : List (TypePackId × PendingTypePack))
    (L : TxnLog) :
    (rhs.foldl (fun acc q => acc.setTp q.1 q.2) L).typeVarChanges = L.typeVarChanges := by
  induction rhs generalizing L with
  | nil => rfl
  | cons hd tl ih => rw [List.foldl_cons, ih, TxnLog.typeVarChanges_setTp]

theorem TxnLog.typeVarChanges_foldl_setTy (rhs : List (TypeId × PendingType))
    (L : TxnLog) :
    (rhs.foldl (fun acc q => acc.setTy q.1 q.2) L).typeVarChanges
      = rhs.foldl (fun m q => setEntry m q.1 q.2) L.typeVarChanges := by
  induction rhs generalizing L with
  | nil => rfl
  | cons hd tl ih =>
    rw [List.foldl_cons, List.foldl_cons, ih, TxnLog.typeVarChanges_setTy]

theorem TxnLog.typeVarChanges_concat (L rhs : TxnLog) :
    (L.concat rhs).typeVarChanges
      = rhs.typeVarChanges.foldl (fun m q => setEntry m q.1 q.2) L.typeVarChanges := by
  rw [TxnLog.concat, TxnLog.typeVarChanges_foldl_setTp, TxnLog.typeVarChanges_foldl_setTy]

/-! ### Claim theorems -/

/-- Claim C1: for every node `n` and shape `s`, `replace(n, s)` on a
transaction log followed by `commit()` on that same log makes the live
graph's committed shape of `n` equal to `s`. -/
theorem TxnLog.replace_commit_sets_shape (g : Graph) (L : TxnLog) (n : TypeId)
    (s : TypeVar) :
    (TxnLog.commit g (TxnLog.replace L n s).1).1.types n = s := by
  simp [TxnLog.commit, TxnLog.replace, lookupEntry_setEntry_self]

/-- Claim C5: `replace(n, s1)` followed by `clear()` leaves the live graph
entirely unchanged.  In the embedding `replace` and `clear` act on the log
alone and never produce a graph, and the cleared log has no pending entry
left for any node; hence even committing the resulting log leaves every
type node and pack node with exactly its prior committed shape. -/
theorem TxnLog.replace_clear_leaves_graph_unchanged (g : Graph) (L : TxnLog)
    (n : TypeId) (s1 : TypeVar) (m : TypeId) (p : TypePackId) :
    (TxnLog.pending (TxnLog.clear (TxnLog.replace L n s1).1) m = none)
    ∧ (TxnLog.commit g (TxnLog.clear (TxnLog.replace L n s1).1)).1.types m = g.types m
    ∧ (TxnLog.commit g (TxnLog.clear (TxnLog.replace L n s1).1)).1.packs p = g.packs p := by
  refine ⟨?_, ?_, ?_⟩
  · simp [TxnLog.pending, lookupEntry]
  · simp [TxnLog.commit, lookupEntry]
  · simp [TxnLog.commit, lookupEntry]

/-- Claim C3: with `Linv = L.inverse()` computed against the pre-commit
graph, running `L.commit()` and then `Linv.commit()` restores every node
(in particular every node `L` had queued) to exactly the committed shape it
had before `L.commit()`. -/
theorem TxnLog.inverse_commit_commit_restores (g : Graph) (L : TxnLog)
    (n : TypeId) (p : TypePackId) :
    (TxnLog.commit (TxnLog.commit g L).1 (TxnLog.inverse g L)).1.types n = g.types n
    ∧ (TxnLog.commit (TxnLog.commit g L).1 (TxnLog.inverse g L)).1.packs p = g.packs p := by
  constructor
  · simp only [TxnLog.commit, TxnLog.inverse, TxnLog.typeVarChanges_mk]
    rw [lookupEntry_map_key L.typeVarChanges (fun k => (⟨g.types k⟩ : PendingType)) n]
    cases h : lookupEntry L.typeVarChanges n <;> simp [h]
  · simp only [TxnLog.commit, TxnLog.inverse, TxnLog.typePackChanges_mk]
    rw [lookupEntry_map_key L.typePackChanges (fun k => (⟨g.packs k⟩ : PendingTypePack)) p]
    cases h : lookupEntry L.typePackChanges p <;> simp [h]

/-- Claim C8: two `queue(n)` calls on the same log with no intervening
`commit()` or `clear()` return the same Pending Node: the second call
creates no new entry (the log state is unchanged) and returns the pending
node produced by the first call. -/
theorem TxnLog.queue_idempotent (g : Graph) (L : TxnLog) (n : TypeId) :
    TxnLog.queue g (TxnLog.queue g L n).1 n = TxnLog.queue g L n := by
  unfold TxnLog.queue
  cases h : lookupEntry L.typeVarChanges n with
  | some pt => simp [h]
  | none =>
    simp only [h]
    simp [lookupEntry_setEntry_self]

/-- Claim C2: `pending(n)` on a log `L` that has a parent `P` looks up only
`L`'s own mapping: when `n` is not queued in `L` itself, `pending(n)`
returns nothing, even when `n` is queued in `P` — there is no read-through
to the parent chain. -/
theorem TxnLog.pending_is_local_only (own : List (TypeId × PendingType))
    (packMap : List (TypePackId × PendingTypePack)) (P : TxnLog) (n : TypeId)
    (hlocal : lookupEntry own n = none)
    (hparent : (TxnLog.pending P n).isSome = true) :
    TxnLog.pending (TxnLog.mk own packMap (some P)) n = none := by
  simpa [TxnLog.pending] using hlocal

/-- Witness for claim C2: a child log with an empty mapping and a parent
that queues node 5; `pending 5` on the child is still `none`. -/
theorem TxnLog.pending_is_local_only_witness :
    TxnLog.pending
        (TxnLog.mk [] [] (some (TxnLog.mk [(5, ⟨TypeVar.prim 1⟩)] [] none))) 5
      = none :=
  TxnLog.pending_is_local_only [] [] (TxnLog.mk [(5, ⟨TypeVar.prim 1⟩)] [] none) 5
    (by decide) (by decide)

/-- Claim C4: if `L1` queues shape `A` on `n` and `L2` queues shape `B` on
`n`, then after `L1.concat(move(L2))` the entry for `n` is `B` (the
incoming log wins on conflict), and a subsequent commit makes `n`'s
committed shape `B`.  The well-formedness hypothesis is the header
invariant that a given identity has at most one entry in a log's own map. -/
theorem TxnLog.concat_incoming_wins (g : Graph) (L1 L2 : TxnLog) (n : TypeId)
    (A B : TypeVar)
    (h1 : TxnLog.pending L1 n = some ⟨A⟩)
    (h2 : TxnLog.pending L2 n = some ⟨B⟩)
    (hnd : TxnLog.WFtypes L2) :
    TxnLog.pending (TxnLog.concat L1 L2) n = some ⟨B⟩
    ∧ (TxnLog.commit g (TxnLog.concat L1 L2)).1.types n = B := by
  have hp : TxnLog.pending (TxnLog.concat L1 L2) n = some ⟨B⟩ := by
    rw [TxnLog.pending, TxnLog.typeVarChanges_concat]
    exact lookupEntry_foldl_setEntry_of_some _ _ _ _ hnd h2
  have hp' : lookupEntry (TxnLog.concat L1 L2).typeVarChanges n = some ⟨B⟩ := hp
  exact ⟨hp, by simp [TxnLog.commit, hp']⟩

/-- Witness for claim C4: `L1` queues `prim 1` on node 4, `L2` queues
`prim 2`; after `concat` the entry is `prim 2` and committing writes
`prim 2` into the graph. -/
theorem TxnLog.concat_incoming_wins_witness :
    TxnLog.pending
        (TxnLog.concat (TxnLog.mk [(4, ⟨TypeVar.prim 1⟩)] [] none)
          (TxnLog.mk [(4, ⟨TypeVar.prim 2⟩)] [] none)) 4
      = some ⟨TypeVar.prim 2⟩
    ∧ (TxnLog.commit ⟨fun _ => TypeVar.err, fun _ => TypePackVar.pack 0⟩
        (TxnLog.concat (TxnLog.mk [(4, ⟨TypeVar.prim 1⟩)] [] none)
          (TxnLog.mk [(4, ⟨TypeVar.prim 2⟩)] [] none))).1.types 4
      = TypeVar.prim 2 :=
  TxnLog.concat_incoming_wins ⟨fun _ => TypeVar.err, fun _ => TypePackVar.pack 0⟩
    (TxnLog.mk [(4, ⟨TypeVar.prim 1⟩)] [] none)
    (TxnLog.mk [(4, ⟨TypeVar.prim 2⟩)] [] none) 4 (TypeVar.prim 1) (TypeVar.prim 2)
    (by decide) (by decide) (by decide)

/-- One step of `follow` on an effective bound alias: the loop hops to the
alias target. -/
theorem TxnLog.follow_succ_bound (g : Graph) (L : TxnLog) (fuel : Nat)
    (ty target : TypeId) (h : effective g L ty = TypeVar.bound target) :
    TxnLog.follow g L (fuel + 1) ty = TxnLog.follow g L fuel target := by
  have hunfold : TxnLog.follow g L (fuel + 1) ty
      = match effective g L ty with
        | TypeVar.bound t => TxnLog.follow g L fuel t
        | _ => ty := rfl
  rw [hunfold, h]

/-- One step of `follow` on an effective non-alias shape: the loop stops. -/
theorem TxnLog.follow_succ_not_bound (g : Graph) (L : TxnLog) (fuel : Nat)
    (ty : TypeId) (h : (effective g L ty).tag ≠ Kind.bound) :
    TxnLog.follow g L (fuel + 1) ty = ty := by
  have hunfold : TxnLog.follow g L (fuel + 1) ty
      = match effective g L ty with
        | TypeVar.bound t => TxnLog.follow g L fuel t
        | _ => ty := rfl
  rw [hunfold]
  cases he : effective g L ty with
  | bound t =>
    refine absurd ?_ h
    rw [he]
    rfl
  | free l => rfl
  | table l => rfl
  | prim n => rfl
  | err => rfl

/-- Claim C6: `follow` resolves successive bound-alias links, at each hop
checking the log's pending shape before the committed one, and stops at the
first node whose effective shape is not a bound alias.  Over a 3-hop alias
chain `a → b → c` (committed) whose middle hop `b` has a pending redirect to
`d`, `follow` returns the pending target `d`, not the originally committed
target `c`. -/
theorem TxnLog.follow_three_hop_pending_redirect (g : Graph) (L : TxnLog)
    (a b c d : TypeId) (fuel : Nat)
    (ha : TxnLog.pending L a = none)
    (hga : g.types a = TypeVar.bound b)
    (hgb : g.types b = TypeVar.bound c)
    (hb : TxnLog.pending L b = some ⟨TypeVar.bound d⟩)
    (hd : (effective g L d).tag ≠ Kind.bound)
    (hcd : c ≠ d) :
    TxnLog.follow g L (fuel + 3) a = d ∧ TxnLog.follow g L (fuel + 3) a ≠ c := by
  have heffa : effective g L a = TypeVar.bound b := by simp [effective, ha, hga]
  have heffb : effective g L b = TypeVar.bound d := by simp [effective, hb]
  have e1 : TxnLog.follow g L (fuel + 3) a = TxnLog.follow g L (fuel + 2) b :=
    TxnLog.follow_succ_bound g L (fuel + 2) a b heffa
  have e2 : TxnLog.follow g L (fuel + 2) b = TxnLog.follow g L (fuel + 1) d :=
    TxnLog.follow_succ_bound g L (fuel + 1) b d heffb
  have e3 : TxnLog.follow g L (fuel + 1) d = d :=
    TxnLog.follow_succ_not_bound g L fuel d hd
  refine ⟨by rw [e1, e2, e3], ?_⟩
  rw [e1, e2, e3]
  exact Ne.symm hcd

/-- Concrete live graph for the follow example: node 0 is committed-bound to
node 1, node 1 is committed-bound to node 2, nodes 2 and 3 are primitives. -/
def exGraph : Graph where
  types := fun n =>
    if n = 0 then TypeVar.bound 1
    else if n = 1 then TypeVar.bound 2
    else if n = 2 then TypeVar.prim 7
    else if n = 3 then TypeVar.prim 9
    else TypeVar.err
  packs := fun _ => TypePackVar.pack 0

/-- Concrete log for the follow example: a pending redirect of the middle
hop (node 1) to node 3. -/
def exLog : TxnLog := TxnLog.mk [(1, ⟨TypeVar.bound 3⟩)] [] none

/-- Witness for claim C6: on the concrete 3-hop chain `0 → 1 → 2` with the
pending redirect `1 → 3`, `follow` returns 3 (the pending target), not 2
(the committed one). -/
theorem TxnLog.follow_three_hop_pending_redirect_witness :
    TxnLog.follow exGraph exLog 3 0 = 3 ∧ TxnLog.follow exGraph exLog 3 0 ≠ 2 :=
  TxnLog.follow_three_hop_pending_redirect exGraph exLog 0 1 2 3 0
    (by decide) (by decide) (by decide) (by decide) (by decide) (by decide)

/-- The tag-guarded extraction succeeds exactly when the tag matches. -/
theorem get_if_isSome (K : Kind) (tv : TypeVar) :
    (get_if K tv).isSome = decide (tv.tag = K) := by
  rw [get_if]
  by_cases h : tv.tag = K <;> simp [h]

/-- Shared helper: `TxnLog::getMutable` hits the fatal bound-alias
assertion whenever the effective (pending-preferred) shape of the node is a
bound alias, whichever branch (pending or committed) supplied the shape. -/
theorem TxnLog.getMutable_error_of_bound_tag (g : Graph) (L : TxnLog)
    (K : Kind) (ty : TypeId) (h : (effective g L ty).tag = Kind.bound) :
    TxnLog.getMutable g L K ty = Except.error () := by
  cases hp : TxnLog.pending L ty with
  | some pt =>
    have h' : pt.pending.tag = Kind.bound := by simpa [effective, hp] using h
    simp [TxnLog.getMutable, hp, getMutableVar, h']
  | none =>
    have h' : (g.types ty).tag = Kind.bound := by simpa [effective, hp] using h
    simp [TxnLog.getMutable, hp, getMutableVar, h']

/-- Claim C7: on a node whose effective (pending-preferred) shape is a
bound alias, `is<Kind>` never aborts — it is total and simply compares the
direct tag with the requested kind — while `getMutable<Kind>` hits the
fatal bound-alias assertion. -/
theorem TxnLog.is_tolerant_getMutable_fatal_on_alias (g : Graph) (L : TxnLog)
    (K : Kind) (ty : TypeId) (h : (effective g L ty).tag = Kind.bound) :
    TxnLog.is g L K ty = decide ((effective g L ty).tag = K)
    ∧ TxnLog.getMutable g L K ty = Except.error () := by
  constructor
  · cases hp : TxnLog.pending L ty with
    | some pt => simp [TxnLog.is, effective, hp, get_if_isSome]
    | none => simp [TxnLog.is, effective, hp, get_if_isSome]
  · exact TxnLog.getMutable_error_of_bound_tag g L K ty h

/-- Witness for claim C7: node 0 of the example graph is committed-bound
(and has no pending entry); `is prim` returns the plain comparison result
and `getMutable prim` is the fatal abort. -/
theorem TxnLog.is_tolerant_getMutable_fatal_on_alias_witness :
    TxnLog.is exGraph exLog Kind.prim 0
      = decide ((effective exGraph exLog 0).tag = Kind.prim)
    ∧ TxnLog.getMutable exGraph exLog Kind.prim 0 = Except.error () :=
  TxnLog.is_tolerant_getMutable_fatal_on_alias exGraph exLog Kind.prim 0 (by decide)

/-- Shared helper: the pack-side `TxnLog::getMutable` hits the fatal
bound-alias assertion whenever the effective (pending-preferred) shape of
the pack node is a bound alias. -/
theorem TxnLog.getMutablePack_error_of_bound_tag (g : Graph) (L : TxnLog)
    (K : PackKind) (tp : TypePackId)
    (h : (effectivePack g L tp).tag = PackKind.bound) :
    TxnLog.getMutablePack g L K tp = Except.error () := by
  cases hp : TxnLog.pendingPack L tp with
  | some pt =>
    have h' : pt.pending.tag = PackKind.bound := by simpa [effectivePack, hp] using h
    simp [TxnLog.getMutablePack, hp, getMutablePackVar, h']
  | none =>
    have h' : (g.packs tp).tag = PackKind.bound := by simpa [effectivePack, hp] using h
    simp [TxnLog.getMutablePack, hp, getMutablePackVar, h']

/-- Claim C10: for every type identity and every pack identity and every
kind, `get<Kind>` performs exactly the same lookup as `getMutable<Kind>`
and returns the identical result (the header defines it as a direct
delegation, for both instantiations of `TID`); consequently, on a node
whose effective shape is a bound alias, the read-only `get<Kind>` hits the
same fatal bound-alias assertion as `getMutable<Kind>`. -/
theorem TxnLog.get_refines_getMutable (g : Graph) (L : TxnLog) (K : Kind)
    (PK : PackKind) (ty : TypeId) (tp : TypePackId) :
    TxnLog.get g L K ty = TxnLog.getMutable g L K ty
    ∧ TxnLog.getPack g L PK tp = TxnLog.getMutablePack g L PK tp
    ∧ ((effective g L ty).tag = Kind.bound →
        TxnLog.get g L K ty = Except.error ())
    ∧ ((effectivePack g L tp).tag = PackKind.bound →
        TxnLog.getPack g L PK tp = Except.error ()) :=
  ⟨rfl, rfl,
   TxnLog.getMutable_error_of_bound_tag g L K ty,
   TxnLog.getMutablePack_error_of_bound_tag g L PK tp⟩

/-- Concrete live graph for the C10 witness: type node 0 and pack node 0
are both committed bound aliases. -/
def exGraph2 : Graph where
  types := fun n => if n = 0 then TypeVar.bound 1 else TypeVar.prim 7
  packs := fun p => if p = 0 then TypePackVar.bound 1 else TypePackVar.pack 5

/-- Witness for claim C10: on the committed-bound type node 0 and pack
node 0, `get` agrees with `getMutable` on both sides and both are the
fatal abort. -/
theorem TxnLog.get_refines_getMutable_witness :
    TxnLog.get exGraph2 exLog Kind.prim 0 = TxnLog.getMutable exGraph2 exLog Kind.prim 0
    ∧ TxnLog.getPack exGraph2 exLog PackKind.pack 0
        = TxnLog.getMutablePack exGraph2 exLog PackKind.pack 0
    ∧ TxnLog.get exGraph2 exLog Kind.prim 0 = Except.error ()
    ∧ TxnLog.getPack exGraph2 exLog PackKind.pack 0 = Except.error () :=
  ⟨(TxnLog.get_refines_getMutable exGraph2 exLog Kind.prim PackKind.pack 0 0).1,
   (TxnLog.get_refines_getMutable exGraph2 exLog Kind.prim PackKind.pack 0 0).2.1,
   (TxnLog.get_refines_getMutable exGraph2 exLog Kind.prim PackKind.pack 0 0).2.2.1
     (by decide),
   (TxnLog.get_refines_getMutable exGraph2 exLog Kind.prim PackKind.pack 0 0).2.2.2
     (by decide)⟩

/-- Claim C9: for a pair of identities not already on the shared stack,
`pushSeen(n1,n2)` makes `haveSeen(n1,n2)` true; the matching
`popSeen(n1,n2)` makes it false again; and neither operation changes the
`haveSeen` result for any unrelated pair. -/
theorem seen_push_pop_balance (s : SeenSet) (n1 n2 m1 m2 : TypeOrPackId)
    (hnotin : (n1, n2) ∉ s) :
    haveSeen (pushSeen s n1 n2) n1 n2 = true
    ∧ haveSeen (popSeen (pushSeen s n1 n2) n1 n2) n1 n2 = false
    ∧ ((m1, m2) ≠ (n1, n2) →
        haveSeen (pushSeen s n1 n2) m1 m2 = haveSeen s m1 m2
        ∧ haveSeen (popSeen (pushSeen s n1 n2) n1 n2) m1 m2 = haveSeen s m1 m2) := by
  have hpop : popSeen (pushSeen s n1 n2) n1 n2 = s := by
    rw [popSeen, pushSeen]
    exact List.dropLast_concat ..
  refine ⟨?_, ?_, fun hm => ⟨?_, ?_⟩⟩
  · simp [haveSeen, pushSeen]
  · simp [haveSeen, hpop, hnotin]
  · simp [haveSeen, pushSeen, hm]
  · rw [hpop]

/-- Witness for claim C9: starting from a stack holding only the unrelated
pair (1, 2), push and pop of (3, 4) behave as the claim states and leave
the unrelated pair's answer untouched. -/
theorem seen_push_pop_balance_witness :
    haveSeen (pushSeen [(1, 2)] 3 4) 3 4 = true
    ∧ haveSeen (popSeen (pushSeen [(1, 2)] 3 4) 3 4) 3 4 = false
    ∧ haveSeen (pushSeen [(1, 2)] 3 4) 1 2 = haveSeen [(1, 2)] 1 2
    ∧ haveSeen (popSeen (pushSeen [(1, 2)] 3 4) 3 4) 1 2 = haveSeen [(1, 2)] 1 2 :=
  ⟨(seen_push_pop_balance [(1, 2)] 3 4 1 2 (by decide)).1,
   (seen_push_pop_balance [(1, 2)] 3 4 1 2 (by decide)).2.1,
   ((seen_push_pop_balance [(1, 2)] 3 4 1 2 (by decide)).2.2 (by decide)).1,
   ((seen_push_pop_balance [(1, 2)] 3 4 1 2 (by decide)).2.2 (by decide)).2⟩
